import Mathlib

/-!
Verification development for the dt-helper library: datetime/float-string
conversion helpers and the time-range argument resolver
(`get_time_ranges_and_args`).  The Python module itself is not present in
this tree (only its test suite and packaging metadata are), so the
operations are modelled from the specification, with all formats and
normalisations pinned by the behaviour asserted in `tests/test_init.py`.
Integer division below is Euclidean (`/` = `Int.ediv`), which coincides
with Python floor division on the nonnegative divisors used here.
-/

-- ## Proleptic Gregorian calendar arithmetic (days <-> civil dates)
-- Standard era-based algorithms used to give meaning to "subtract a
-- timedelta" / "combine a date with midnight" on the modelled datetimes.

/-- Leap-day adjusted day count used to locate the year inside a 400-year
era: `doe` minus the number of Feb-29s at or before it, plus corrections. -/
def gOfDoe (doe : Int) : Int := doe - doe / 1460 + doe / 36524 - doe / 146096

/-- Year-of-era (0..399) of a day-of-era (0..146096). -/
def yoeOfDoe (doe : Int) : Int := gOfDoe doe / 365

/-- Day-of-era on which year-of-era `y` starts (year starts on March 1). -/
def yearStartDoe (y : Int) : Int := 365 * y + y / 4 - y / 100

/-- Day-of-year (0..365, counted from March 1) of a day-of-era. -/
def doyOfDoe (doe : Int) : Int := doe - yearStartDoe (yoeOfDoe doe)

/-- Shifted month index (0 = March .. 11 = February) of a day-of-year. -/
def mpOfDoy (doy : Int) : Int := (5 * doy + 2) / 153

/-- Day of month (1..31) of a day-of-year. -/
def dayOfDoy (doy : Int) : Int := doy - (153 * mpOfDoy doy + 2) / 5 + 1

/-- Calendar month (1..12) of a day-of-year. -/
def monthOfDoy (doy : Int) : Int := mpOfDoy doy + (if mpOfDoy doy < 10 then 3 else -9)

/-- Civil date `(year, month, day)` of the day numbered `z` from 1970-01-01. -/
def civilFromDays (z : Int) : Int × Int × Int :=
  let era := (z + 719468) / 146097
  let doe := (z + 719468) % 146097
  let doy := doyOfDoe doe
  let m := monthOfDoy doy
  let d := dayOfDoy doy
  let y := yoeOfDoe doe + era * 400
  (if m ≤ 2 then y + 1 else y, m, d)

/-- Day number (from 1970-01-01) of a civil date. -/
def daysFromCivil (y m d : Int) : Int :=
  let yy := if m ≤ 2 then y - 1 else y
  let era := yy / 400
  let yoe := yy - era * 400
  let mp := (m + 9) % 12
  let doy := (153 * mp + 2) / 5 + d - 1
  era * 146097 + (yearStartDoe yoe + doy) - 719468

/-- Gregorian leap-year test. -/
def isLeapYear (y : Int) : Bool := y % 4 == 0 && (y % 100 != 0 || y % 400 == 0)

/-- Number of days in a month of a given year. -/
def daysInMonth (y : Int) (m : Nat) : Nat :=
  match m with
  | 1 => 31
  | 2 => if isLeapYear y then 29 else 28
  | 3 => 31
  | 4 => 30
  | 5 => 31
  | 6 => 30
  | 7 => 31
  | 8 => 31
  | 9 => 30
  | 10 => 31
  | 11 => 30
  | 12 => 31
  | _ => 0

-- ## Datetimes

/-- A (naive) datetime value with microsecond precision, mirroring
`datetime.datetime`. -/
structure DT where
  year : Int
  month : Nat
  day : Nat
  hour : Nat
  minute : Nat
  second : Nat
  usec : Nat
deriving DecidableEq, Repr

/-- Range validity of a datetime, as enforced by the `datetime` constructor:
year 1..9999, a real calendar day, and in-range time fields. -/
def validDT (dt : DT) : Bool :=
  1 ≤ dt.year && dt.year ≤ 9999 &&
  1 ≤ dt.month && dt.month ≤ 12 &&
  1 ≤ dt.day && dt.day ≤ daysInMonth dt.year dt.month &&
  dt.hour ≤ 23 && dt.minute ≤ 59 && dt.second ≤ 59 && dt.usec ≤ 999999

/-- Datetime corresponding to a count of microseconds since the epoch
1970-01-01 00:00:00 (the representation used for datetime arithmetic). -/
def epochUsToDt (u : Int) : DT :=
  let z := u / 86400000000
  let tod := u % 86400000000
  let c := civilFromDays z
  { year := c.1
    month := c.2.1.toNat
    day := c.2.2.toNat
    hour := (tod / 3600000000).toNat
    minute := (tod / 60000000 % 60).toNat
    second := (tod / 1000000 % 60).toNat
    usec := (tod % 1000000).toNat }

/-- Microseconds since the epoch of a datetime. -/
def dtToEpochUs (dt : DT) : Int :=
  (daysFromCivil dt.year dt.month dt.day * 86400
    + dt.hour * 3600 + dt.minute * 60 + dt.second) * 1000000 + dt.usec

/-- The compact integer `YYYYMMDDHHMMSS` of a datetime. -/
def compactInt (dt : DT) : Int :=
  dt.year * 10000000000 + dt.month * 100000000 + dt.day * 1000000
    + dt.hour * 10000 + dt.minute * 100 + dt.second

/-- Modelled from the spec: the "timestamp-as-float" value
`YYYYMMDDHHMMSS.microseconds` of a datetime (fractional part equals the
microsecond count, not a true fraction of a second). -/
def utcFloatOfDt (dt : DT) : ℚ := (compactInt dt : ℚ) + (dt.usec : ℚ) / 1000000

/-- Timestamp-as-float value of an epoch-microsecond instant. -/
def utcFloatOfEpochUs (u : Int) : ℚ := utcFloatOfDt (epochUsToDt u)

-- ## Helpers for ordering timestamp-as-float values

/-- Compact `YYYYMMDD` integer of epoch day `z`. -/
def dayCompact (z : Int) : Int :=
  let c := civilFromDays z
  c.1 * 10000 + c.2.1 * 100 + c.2.2

/-- Month/day part of the compact date, with the year bumped by `10000`
when the date falls in January or February (the tail of the era-year). -/
def jmdcOfDoy (doy : Int) : Int :=
  (if monthOfDoy doy ≤ 2 then 10000 else 0) + monthOfDoy doy * 100 + dayOfDoy doy

/-- Compact date of a day-of-era, relative to the start of its era. -/
def innerCompact (doe : Int) : Int := yoeOfDoe doe * 10000 + jmdcOfDoy (doyOfDoe doe)

/-- Compact `HHMMSSuuuuuu` integer of a time-of-day in microseconds. -/
def todCompactUs (t : Int) : Int :=
  t / 3600000000 * 10000000000 + t / 60000000 % 60 * 100000000
    + t / 1000000 % 60 * 1000000 + t % 1000000

/-- The timestamp-as-float of an instant, scaled by `10^6` to an integer. -/
def scaledValUs (u : Int) : Int :=
  dayCompact (u / 86400000000) * 1000000000000 + todCompactUs (u % 86400000000)

-- ## Timezones and days_ago

/-- A timezone, abstracted by the two offset queries the library performs:
the UTC offset (seconds east) in effect at a given UTC instant
(`datetime.now(tz)`), and the UTC offset `pytz` assigns when localizing a
naive local civil day (`tz.localize(...)`). -/
structure Tz where
  offsetAtUtc : Int → Int
  offsetAtLocalDay : Int → Int

/-- A timezone whose offsets never exceed a day in magnitude (every real
timezone satisfies this). -/
def tzBounded (tz : Tz) : Prop :=
  ∀ d : Int, -86400 ≤ tz.offsetAtLocalDay d ∧ tz.offsetAtLocalDay d ≤ 86400

/-- The UTC timezone. -/
def utcTz : Tz := { offsetAtUtc := fun _ => 0, offsetAtLocalDay := fun _ => 0 }

/-- Modelled from the spec: `days_ago(num, tz)` — the start of the day
`num` days ago in timezone `tz` (clamping negative `num` to zero),
expressed as a UTC datetime.  The current UTC instant, implicit in the
Python code, is the explicit parameter `nowUtcUs` here. -/
def days_ago (numDays : Int) (tz : Tz) (nowUtcUs : Int) : DT :=
  let n := if numDays < 0 then 0 else numDays
  let localNowUs := nowUtcUs + tz.offsetAtUtc nowUtcUs * 1000000
  let targetDay := localNowUs / 86400000000 - n
  epochUsToDt (targetDay * 86400000000 - tz.offsetAtLocalDay targetDay * 1000000)

/-- The local civil day (epoch day number) current in `tz` at a UTC instant. -/
def currentLocalDay (tz : Tz) (nowUtcUs : Int) : Int :=
  (nowUtcUs + tz.offsetAtUtc nowUtcUs * 1000000) / 86400000000

/-- The spec's description of `days_ago(0, tz)`: the UTC instant of the
local midnight opening the timezone's current civil day. -/
def specLocalMidnightUtcUs (tz : Tz) (nowUtcUs : Int) : Int :=
  currentLocalDay tz nowUtcUs * 86400000000
    - tz.offsetAtLocalDay (currentLocalDay tz nowUtcUs) * 1000000

-- ## Float-string formatting and parsing

/-- The strftime format of a timestamp-as-float string. -/
def FLOAT_STRING_FMT : String := "%Y%m%d%H%M%S.%f"

/-- Two zero-padded decimal digits of `n < 100`. -/
def pad2 (n : Nat) : List Char := [Nat.digitChar (n / 10), Nat.digitChar (n % 10)]

/-- Four zero-padded decimal digits of `n < 10000`. -/
def pad4 (n : Nat) : List Char := pad2 (n / 100) ++ pad2 (n % 100)

/-- Six zero-padded decimal digits of `n < 1000000`. -/
def pad6 (n : Nat) : List Char := pad2 (n / 10000) ++ pad2 (n / 100 % 100) ++ pad2 (n % 100)

/-- Raw `strftime('%Y%m%d%H%M%S.%f')` rendering of a datetime: the
fractional part is always six zero-padded digits of the microseconds. -/
def strftimeFloatString (dt : DT) : String :=
  String.mk (pad4 dt.year.toNat ++ pad2 dt.month ++ pad2 dt.day ++ pad2 dt.hour
    ++ pad2 dt.minute ++ pad2 dt.second ++ ('.' :: pad6 dt.usec))

/-- Modelled from the spec: `dt_to_float_string(dt)` with the default
format.  Per the test suite, a zero-microsecond fraction is rendered as
the normalized `"0"` rather than strftime's `"000000"` padding. -/
def dt_to_float_string (dt : DT) : String :=
  String.mk (pad4 dt.year.toNat ++ pad2 dt.month ++ pad2 dt.day ++ pad2 dt.hour
    ++ pad2 dt.minute ++ pad2 dt.second
    ++ ('.' :: (if dt.usec = 0 then ['0'] else pad6 dt.usec)))

/-- Numeric value of a decimal digit character. -/
def digitVal (c : Char) : Nat := c.toNat - 48

/-- Numeric value of a list of decimal digit characters. -/
def natOfDigits (l : List Char) : Nat := l.foldl (fun a c => 10 * a + digitVal c) 0

/-- Parse a `%f` fractional field: one to six digits, scaled to
microseconds by right-padding with zeros. -/
def parseFrac (l : List Char) : Option Nat :=
  if 1 ≤ l.length ∧ l.length ≤ 6 ∧ l.all Char.isDigit then
    some (natOfDigits l * 10 ^ (6 - l.length))
  else none

/-- Build a datetime from parsed components, failing (like the `datetime`
constructor inside `strptime`) when a component is out of range. -/
def buildDT (y mo d h mi s us : Nat) : Option DT :=
  let dt : DT := ⟨(y : Int), mo, d, h, mi, s, us⟩
  if validDT dt then some dt else none

/-- Modelled from the spec: `float_string_to_dt` — parse a compact
`YYYYMMDDHHMMSS[.ffffff]` float-string back into a datetime via
`strptime('%Y%m%d%H%M%S.%f')` (a missing fractional part reads as zero). -/
def float_string_to_dt (s : String) : Option DT :=
  match s.data with
  | c1 :: c2 :: c3 :: c4 :: c5 :: c6 :: c7 :: c8 :: c9 :: c10 :: c11 :: c12 :: c13 :: c14 :: rest =>
    if [c1, c2, c3, c4, c5, c6, c7, c8, c9, c10, c11, c12, c13, c14].all Char.isDigit then
      match (match rest with
             | [] => some 0
             | '.' :: frac => parseFrac frac
             | _ => none) with
      | some us =>
          buildDT (natOfDigits [c1, c2, c3, c4]) (natOfDigits [c5, c6])
            (natOfDigits [c7, c8]) (natOfDigits [c9, c10]) (natOfDigits [c11, c12])
            (natOfDigits [c13, c14]) us
      | none => none
    else none
  | _ => none

-- ## Duration strings ("N:unit")

/-- The admissible duration units and their lengths in seconds. -/
def unitSecondsOf (u : List Char) : Option Nat :=
  if u = "seconds".data then some 1
  else if u = "minutes".data then some 60
  else if u = "hours".data then some 3600
  else if u = "days".data then some 86400
  else if u = "weeks".data then some 604800
  else none

/-- The five admissible duration unit names. -/
def unitNames : List String := ["seconds", "minutes", "hours", "days", "weeks"]

/-- Split a character list at its first colon. -/
def splitAtColon : List Char → Option (List Char × List Char)
  | [] => none
  | c :: rest =>
    if c = ':' then some ([], rest)
    else
      match splitAtColon rest with
      | some p => some (c :: p.1, p.2)
      | none => none

/-- Modelled from the spec: parse a relative duration string
`"<N>:<unit>"` with unit in seconds/minutes/hours/days/weeks, returning
its total length in seconds; any other shape is a format error. -/
def parseDuration (s : String) : Option Nat :=
  match splitAtColon s.data with
  | some p =>
    if p.1 ≠ [] ∧ p.1.all Char.isDigit then
      match unitSecondsOf p.2 with
      | some m => some (natOfDigits p.1 * m)
      | none => none
    else none
  | none => none

/-- The duration grammar of the spec: a nonempty digit string, a colon,
and one of the five unit names. -/
def durGrammar (s : String) : Prop :=
  ∃ ds u, ds ≠ [] ∧ ds.all Char.isDigit = true ∧ u ∈ unitNames ∧
    s = String.mk (ds ++ ':' :: u.data)

-- ## Timestamp strings ("YYYY-MM-DD[ HH:MM:SS]")

/-- Parse a calendar timestamp string: `YYYY-MM-DD HH:MM:SS` or the
date-only `YYYY-MM-DD` (midnight), validated like `strptime`. -/
def parseTsChars (l : List Char) : Option DT :=
  match l with
  | [a1, a2, a3, a4, '-', b1, b2, '-', e1, e2] =>
    if [a1, a2, a3, a4, b1, b2, e1, e2].all Char.isDigit then
      buildDT (natOfDigits [a1, a2, a3, a4]) (natOfDigits [b1, b2]) (natOfDigits [e1, e2])
        0 0 0 0
    else none
  | [a1, a2, a3, a4, '-', b1, b2, '-', e1, e2, ' ', f1, f2, ':', g1, g2, ':', k1, k2] =>
    if [a1, a2, a3, a4, b1, b2, e1, e2, f1, f2, g1, g2, k1, k2].all Char.isDigit then
      buildDT (natOfDigits [a1, a2, a3, a4]) (natOfDigits [b1, b2]) (natOfDigits [e1, e2])
        (natOfDigits [f1, f2]) (natOfDigits [g1, g2]) (natOfDigits [k1, k2]) 0
    else none
  | _ => none

/-- Interpret a parsed local calendar timestamp in timezone `tz` and
convert it to UTC epoch microseconds (the `pytz` localize-then-to-UTC
step of the resolver). -/
def ts_to_utc_us (tz : Tz) (s : String) : Option Int :=
  (parseTsChars s.data).map (fun dt =>
    let ld := daysFromCivil dt.year dt.month dt.day
    (ld * 86400 + dt.hour * 3600 + dt.minute * 60 + dt.second) * 1000000 + dt.usec
      - tz.offsetAtLocalDay ld * 1000000)

/-- Date rendering `YYYY-MM-DD` of a datetime. -/
def renderDate (dt : DT) : String :=
  String.mk (pad4 dt.year.toNat ++ '-' :: pad2 dt.month ++ '-' :: pad2 dt.day)

/-- Date-time rendering `YYYY-MM-DD HH:MM:SS` of a datetime. -/
def renderDateTime (dt : DT) : String :=
  String.mk (pad4 dt.year.toNat ++ '-' :: pad2 dt.month ++ '-' :: pad2 dt.day
    ++ ' ' :: pad2 dt.hour ++ ':' :: pad2 dt.minute ++ ':' :: pad2 dt.second)

/-- The timestamp grammar of the spec: the rendering of some valid
datetime, date-only or date-and-time, with whole seconds. -/
def tsGrammar (s : String) : Prop :=
  ∃ dt : DT, validDT dt = true ∧ dt.usec = 0 ∧
    (s = renderDate dt ∨ s = renderDateTime dt)

-- ## Numeric bounds and their rendering

/-- A numeric bound: a finite timestamp-as-float value or `+infinity`
(`float('inf')`). -/
inductive XFloat where
  | fin : ℚ → XFloat
  | inf : XFloat
deriving DecidableEq, Repr

/-- Strict order on bounds: every finite value is below `+infinity`. -/
def XFloat.lt : XFloat → XFloat → Prop
  | .fin a, .fin b => a < b
  | .fin _, .inf => True
  | .inf, _ => False

instance (a b : XFloat) : Decidable (a.lt b) :=
  match a, b with
  | .fin x, .fin y => inferInstanceAs (Decidable (x < y))
  | .fin _, .inf => .isTrue trivial
  | .inf, .fin _ => .isFalse fun h => h
  | .inf, .inf => .isFalse fun h => h

/-- A time range: a finite numeric start bound and an end bound. -/
abbrev Range := ℚ × XFloat

/-- Drop trailing `'0'` characters. -/
def dropTrailingZeros (l : List Char) : List Char :=
  (l.reverse.dropWhile (fun c => c = '0')).reverse

/-- Fixed-width decimal digits (most significant first) of `n`. -/
def padDigits : Nat → Nat → List Char
  | 0, _ => []
  | k + 1, n => padDigits k (n / 10) ++ [Nat.digitChar (n % 10)]

/-- Smallest exponent below 64 with `den ∣ 10^k`, if any. -/
def pow10Exp (den : Nat) : Option Nat := (List.range 64).find? (fun k => 10 ^ k % den = 0)

/-- Decimal rendering of a nonnegative rational, in the style of Python's
`str` on a float: integer part, a dot, and the fractional digits without
trailing zeros (`"123.456"`, `"123.0"`). -/
def fmtRatNonneg (q : ℚ) : String :=
  match pow10Exp q.den with
  | some k =>
    let ip := q.num.toNat / q.den
    let fr := q.num.toNat * (10 ^ k / q.den) % 10 ^ k
    if fr = 0 then toString ip ++ ".0"
    else toString ip ++ "." ++ String.mk (dropTrailingZeros (padDigits k fr))
  | none => toString q.num.toNat ++ "/" ++ toString q.den

/-- Decimal rendering of a rational (see `fmtRatNonneg`). -/
def fmtRat (q : ℚ) : String :=
  if q < 0 then "-" ++ fmtRatNonneg (-q) else fmtRatNonneg q

-- ## The time-range resolver

/-- Split a string on commas (Python `s.split(',')`). -/
def splitCommaChars : List Char → List (List Char)
  | [] => [[]]
  | c :: rest =>
    if c = ',' then [] :: splitCommaChars rest
    else
      match splitCommaChars rest with
      | [] => [[c]]
      | h :: t => (c :: h) :: t

/-- Split a string on commas (Python `s.split(',')`). -/
def splitOnComma (s : String) : List String := (splitCommaChars s.data).map String.mk

/-- Apply a fallible function to every element, failing if any call fails
(each parse error propagates out of the resolver as an exception). -/
def mapOpt (f : α → Option β) : List α → Option (List β)
  | [] => some []
  | a :: l =>
    match f a, mapOpt f l with
    | some b, some bs => some (b :: bs)
    | _, _ => none

/-- The arguments of `get_time_ranges_and_args`.  The Python keyword
arguments map to optional fields; `now`, a float-string in Python, is the
epoch-microsecond instant `nowUs` here, and `tz` is the resolved timezone. -/
structure TRArgs where
  startF : Option ℚ := none
  endF : Option ℚ := none
  start_ts : Option String := none
  end_ts : Option String := none
  since : Option String := none
  until_ : Option String := none
  tz : Tz
  nowUs : Int

/-- Entries contributed by the absolute numeric `start`/`end` arguments. -/
def startEndEntries (a : TRArgs) : List (String × Range) :=
  match a.startF, a.endF with
  | some s, some e => [("start=" ++ fmtRat s ++ ",end=" ++ fmtRat e, (s, XFloat.fin e))]
  | some s, none => [("start=" ++ fmtRat s, (s, XFloat.inf))]
  | none, some e => [("end=" ++ fmtRat e, (0, XFloat.fin e))]
  | none, none => []

/-- Entries contributed by the `start_ts`/`end_ts` timestamp-string
arguments: comma-separated values are parsed in the given timezone and
converted to UTC float form, cartesian-paired when both sides are
present, else paired with `0`/`+inf`. -/
def tsEntries (a : TRArgs) : Option (List (String × Range)) :=
  match a.start_ts, a.end_ts with
  | some sts, some ets =>
    match mapOpt (fun v => (ts_to_utc_us a.tz v).map (fun x => (v, x))) (splitOnComma sts),
          mapOpt (fun v => (ts_to_utc_us a.tz v).map (fun x => (v, x))) (splitOnComma ets) with
    | some ss, some es =>
      some (ss.flatMap (fun sp => es.map (fun ep =>
        ("start_ts=" ++ sp.1 ++ ",end_ts=" ++ ep.1,
         (utcFloatOfEpochUs sp.2, XFloat.fin (utcFloatOfEpochUs ep.2))))))
    | _, _ => none
  | some sts, none =>
    mapOpt (fun v => (ts_to_utc_us a.tz v).map (fun x =>
      ("start_ts=" ++ v, (utcFloatOfEpochUs x, XFloat.inf)))) (splitOnComma sts)
  | none, some ets =>
    mapOpt (fun v => (ts_to_utc_us a.tz v).map (fun x =>
      ("end_ts=" ++ v, ((0 : ℚ), XFloat.fin (utcFloatOfEpochUs x))))) (splitOnComma ets)
  | none, none => some []

/-- Entries contributed by the relative `since`/`until` duration
arguments: `since` is subtracted from `now`, `until` added to `now`,
paired with `+inf`/`0` when only one side is given. -/
def sinceEntries (a : TRArgs) : Option (List (String × Range)) :=
  match a.since, a.until_ with
  | some ss, some us =>
    match parseDuration ss, parseDuration us with
    | some k1, some k2 =>
      some [("since=" ++ ss ++ ",until=" ++ us,
        (utcFloatOfEpochUs (a.nowUs - (k1 : Int) * 1000000),
         XFloat.fin (utcFloatOfEpochUs (a.nowUs + (k2 : Int) * 1000000))))]
    | _, _ => none
  | some ss, none =>
    match parseDuration ss with
    | some k1 =>
      some [("since=" ++ ss,
        (utcFloatOfEpochUs (a.nowUs - (k1 : Int) * 1000000), XFloat.inf))]
    | none => none
  | none, some us =>
    match parseDuration us with
    | some k2 =>
      some [("until=" ++ us,
        ((0 : ℚ), XFloat.fin (utcFloatOfEpochUs (a.nowUs + (k2 : Int) * 1000000))))]
    | none => none
  | none, none => some []

/-- Insert a key/value pair Python-dict style: overwrite the value at an
existing key (keeping its position), else append. -/
def upsert (l : List (String × Range)) (kv : String × Range) : List (String × Range) :=
  if l.any (fun p => p.1 = kv.1) then
    l.map (fun p => if p.1 = kv.1 then (p.1, kv.2) else p)
  else l ++ [kv]

/-- The association list of the Python dict built by inserting the pairs
in order. -/
def dictOfList (l : List (String × Range)) : List (String × Range) := l.foldl upsert []

/-- Modelled from the spec: `get_time_ranges_and_args` — map the optional
time-specifier arguments to a mapping from descriptor keys to
`(start, end)` bound pairs; with no arguments the single entry
`"all" -> (0, +inf)`.  A parse failure of any supplied string raises
(returns `none`). -/
def get_time_ranges_and_args (a : TRArgs) : Option (List (String × Range)) :=
  match tsEntries a, sinceEntries a with
  | some e2, some e3 =>
    let entries := startEndEntries a ++ e2 ++ e3
    some (dictOfList (if entries.isEmpty then [("all", ((0 : ℚ), XFloat.inf))] else entries))
  | _, _ => none

-- ## Calendar lemmas

theorem gOfDoe_mono {a b : Int} (h0 : 0 ≤ a) (hab : a ≤ b) (hb : b ≤ 146096) :
    gOfDoe a ≤ gOfDoe b := by
  unfold gOfDoe
  omega

set_option maxRecDepth 100000 in
theorem bracket_lo : ∀ y : Nat, y ≤ 399 → 365 * (y : Int) ≤ gOfDoe (yearStartDoe (y : Int)) := by
  decide

set_option maxRecDepth 100000 in
theorem bracket_hi : ∀ y : Nat, y < 400 →
    gOfDoe (yearStartDoe ((y : Int) + 1) - 1) < 365 * (y : Int) + 365 := by
  decide

set_option maxRecDepth 100000 in
theorem yearStart_facts : ∀ y : Nat, y ≤ 400 →
    0 ≤ yearStartDoe (y : Int) ∧ yearStartDoe (y : Int) ≤ 146096 ∧
    (y < 400 → yearStartDoe ((y : Int) + 1) ≤ yearStartDoe (y : Int) + 366) := by
  decide

theorem yoe_bounds (doe : Int) (h1 : 0 ≤ doe) (h2 : doe ≤ 146096) :
    0 ≤ yoeOfDoe doe ∧ yoeOfDoe doe ≤ 399 := by
  have hl : gOfDoe 0 ≤ gOfDoe doe := gOfDoe_mono le_rfl h1 h2
  have hu : gOfDoe doe ≤ gOfDoe 146096 := gOfDoe_mono h1 h2 le_rfl
  have hc0 : gOfDoe 0 = 0 := by decide
  have hcE : gOfDoe 146096 = 145999 := by decide
  have hdef : yoeOfDoe doe = gOfDoe doe / 365 := rfl
  omega

theorem doy_bounds (doe : Int) (h1 : 0 ≤ doe) (h2 : doe ≤ 146096) :
    0 ≤ doyOfDoe doe ∧ doyOfDoe doe ≤ 365 := by
  obtain ⟨hY0, hY399⟩ := yoe_bounds doe h1 h2
  have hddef : doyOfDoe doe = doe - yearStartDoe (yoeOfDoe doe) := rfl
  have hydef : yoeOfDoe doe = gOfDoe doe / 365 := rfl
  constructor
  · by_contra hcon
    push_neg at hcon
    rw [hddef] at hcon
    rcases eq_or_lt_of_le hY0 with hz | hY1
    · rw [← hz] at hcon
      have h00 : yearStartDoe 0 = 0 := by decide
      omega
    · have hn : (((yoeOfDoe doe - 1).toNat : Int)) = yoeOfDoe doe - 1 :=
        Int.toNat_of_nonneg (by omega)
      have hbh := bracket_hi (yoeOfDoe doe - 1).toNat (by omega)
      rw [hn, show yoeOfDoe doe - 1 + 1 = yoeOfDoe doe by ring] at hbh
      have hYt : (((yoeOfDoe doe).toNat : Int)) = yoeOfDoe doe := Int.toNat_of_nonneg hY0
      have hys := yearStart_facts (yoeOfDoe doe).toNat (by omega)
      rw [hYt] at hys
      have hmono := gOfDoe_mono h1
        (show doe ≤ yearStartDoe (yoeOfDoe doe) - 1 by omega) (by omega)
      omega
  · by_contra hcon
    push_neg at hcon
    rw [hddef] at hcon
    rcases eq_or_lt_of_le hY399 with h399 | hYlt
    · have hc : yearStartDoe 399 = 145731 := by decide
      rw [h399] at hcon
      omega
    · have hn : (((yoeOfDoe doe + 1).toNat : Int)) = yoeOfDoe doe + 1 :=
        Int.toNat_of_nonneg (by omega)
      have hlo := bracket_lo (yoeOfDoe doe + 1).toNat (by omega)
      rw [hn] at hlo
      have hYt : (((yoeOfDoe doe).toNat : Int)) = yoeOfDoe doe := Int.toNat_of_nonneg hY0
      have hys := yearStart_facts (yoeOfDoe doe).toNat (by omega)
      rw [hYt] at hys
      have hys1 := hys.2.2 (by omega)
      have hys' := yearStart_facts (yoeOfDoe doe + 1).toNat (by omega)
      rw [hn] at hys'
      have hmono := gOfDoe_mono
        (show (0 : Int) ≤ yearStartDoe (yoeOfDoe doe + 1) by omega)
        (show yearStartDoe (yoeOfDoe doe + 1) ≤ doe by omega) h2
      omega

set_option maxRecDepth 100000 in
theorem doyTable : ∀ n : Nat, n ≤ 365 →
    1 ≤ monthOfDoy (n : Int) ∧ monthOfDoy (n : Int) ≤ 12 ∧
    1 ≤ dayOfDoy (n : Int) ∧ dayOfDoy (n : Int) ≤ 31 ∧
    301 ≤ jmdcOfDoy (n : Int) ∧ jmdcOfDoy (n : Int) ≤ 10229 := by
  decide

set_option maxRecDepth 100000 in
theorem doyStep : ∀ n : Nat, n < 365 → jmdcOfDoy (n : Int) < jmdcOfDoy ((n : Int) + 1) := by
  decide

theorem yoeOfDoe_mono {a b : Int} (h0 : 0 ≤ a) (hab : a ≤ b) (hb : b ≤ 146096) :
    yoeOfDoe a ≤ yoeOfDoe b := by
  have h := gOfDoe_mono h0 hab hb
  have ha : yoeOfDoe a = gOfDoe a / 365 := rfl
  have hbb : yoeOfDoe b = gOfDoe b / 365 := rfl
  omega

theorem innerCompact_step (doe : Int) (h1 : 0 ≤ doe) (h2 : doe < 146096) :
    innerCompact doe < innerCompact (doe + 1) := by
  obtain ⟨hd0, hd365⟩ := doy_bounds doe h1 (by omega)
  obtain ⟨hd0', hd365'⟩ := doy_bounds (doe + 1) (by omega) (by omega)
  have hym := yoeOfDoe_mono h1 (by omega : doe ≤ doe + 1) (by omega)
  have hi : innerCompact doe = yoeOfDoe doe * 10000 + jmdcOfDoy (doyOfDoe doe) := rfl
  have hi' :
      innerCompact (doe + 1) = yoeOfDoe (doe + 1) * 10000 + jmdcOfDoy (doyOfDoe (doe + 1)) := rfl
  have htc : (((doyOfDoe doe).toNat : Int)) = doyOfDoe doe := Int.toNat_of_nonneg hd0
  have htc' : (((doyOfDoe (doe + 1)).toNat : Int)) = doyOfDoe (doe + 1) :=
    Int.toNat_of_nonneg hd0'
  have ht := doyTable (doyOfDoe doe).toNat (by omega)
  rw [htc] at ht
  have ht' := doyTable (doyOfDoe (doe + 1)).toNat (by omega)
  rw [htc'] at ht'
  rcases eq_or_lt_of_le hym with hEq | hLt
  · have hdoy : doyOfDoe (doe + 1) = doyOfDoe doe + 1 := by
      have e1 : doyOfDoe (doe + 1) = doe + 1 - yearStartDoe (yoeOfDoe (doe + 1)) := rfl
      have e2 : doyOfDoe doe = doe - yearStartDoe (yoeOfDoe doe) := rfl
      rw [e1, e2, ← hEq]
      ring
    have hd364 : doyOfDoe doe ≤ 364 := by omega
    have hstep := doyStep (doyOfDoe doe).toNat (by omega)
    rw [htc] at hstep
    rw [hdoy] at hi'
    omega
  · omega

theorem dayCompact_decomp (z : Int) :
    dayCompact z =
      (z + 719468) / 146097 * 4000000 + innerCompact ((z + 719468) % 146097) := by
  unfold dayCompact civilFromDays innerCompact jmdcOfDoy
  dsimp only
  split_ifs <;> ring

theorem dayCompact_step (z : Int) : dayCompact z < dayCompact (z + 1) := by
  have h1 := dayCompact_decomp z
  have h2 := dayCompact_decomp (z + 1)
  rcases lt_or_ge ((z + 719468) % 146097) 146096 with hlt | hge
  · have hsame : (z + 1 + 719468) / 146097 = (z + 719468) / 146097 ∧
        (z + 1 + 719468) % 146097 = (z + 719468) % 146097 + 1 := by
      omega
    rw [hsame.1, hsame.2] at h2
    have := innerCompact_step ((z + 719468) % 146097) (by omega) hlt
    omega
  · have hE : (z + 719468) % 146097 = 146096 := by omega
    have hnext : (z + 1 + 719468) / 146097 = (z + 719468) / 146097 + 1 ∧
        (z + 1 + 719468) % 146097 = 0 := by
      omega
    rw [hnext.1, hnext.2] at h2
    rw [hE] at h1
    have hc1 : innerCompact 146096 = 4000229 := by decide
    have hc2 : innerCompact 0 = 301 := by decide
    omega

theorem dayCompact_strictMono : StrictMono dayCompact :=
  strictMono_int_of_lt_succ dayCompact_step

theorem todCompactUs_mono {t u : Int} (h0 : 0 ≤ t) (htu : t ≤ u) (hu : u < 86400000000) :
    todCompactUs t ≤ todCompactUs u := by
  unfold todCompactUs
  have h1 : t / 3600000000 ≤ u / 3600000000 := by omega
  rcases eq_or_lt_of_le h1 with he1 | hl1
  · have h2 : t / 60000000 ≤ u / 60000000 := by omega
    rcases eq_or_lt_of_le h2 with he2 | hl2
    · have h3 : t / 1000000 ≤ u / 1000000 := by omega
      rcases eq_or_lt_of_le h3 with he3 | hl3
      · omega
      · omega
    · omega
  · omega

theorem todCompactUs_bounds {t : Int} (h0 : 0 ≤ t) (h1 : t < 86400000000) :
    0 ≤ todCompactUs t ∧ todCompactUs t ≤ 999999999999 := by
  unfold todCompactUs
  omega

theorem scaledValUs_mono {u v : Int} (h : u ≤ v) : scaledValUs u ≤ scaledValUs v := by
  unfold scaledValUs
  have hz : u / 86400000000 ≤ v / 86400000000 := by omega
  rcases eq_or_lt_of_le hz with hEq | hLt
  · rw [hEq]
    have htu : u % 86400000000 ≤ v % 86400000000 := by omega
    have := todCompactUs_mono (t := u % 86400000000) (u := v % 86400000000)
      (by omega) htu (by omega)
    omega
  · have hd := dayCompact_strictMono hLt
    have hb1 := todCompactUs_bounds (t := u % 86400000000) (by omega) (by omega)
    have hb2 := todCompactUs_bounds (t := v % 86400000000) (by omega) (by omega)
    omega

theorem civil_md_bounds (z : Int) :
    1 ≤ (civilFromDays z).2.1 ∧ (civilFromDays z).2.1 ≤ 12 ∧
    1 ≤ (civilFromDays z).2.2 ∧ (civilFromDays z).2.2 ≤ 31 := by
  have e1 : (civilFromDays z).2.1 = monthOfDoy (doyOfDoe ((z + 719468) % 146097)) := rfl
  have e2 : (civilFromDays z).2.2 = dayOfDoy (doyOfDoe ((z + 719468) % 146097)) := rfl
  have hdoe : 0 ≤ (z + 719468) % 146097 ∧ (z + 719468) % 146097 ≤ 146096 := by omega
  obtain ⟨hd0, hd365⟩ := doy_bounds _ hdoe.1 hdoe.2
  have htc : (((doyOfDoe ((z + 719468) % 146097)).toNat : Int)) =
      doyOfDoe ((z + 719468) % 146097) := Int.toNat_of_nonneg hd0
  have ht := doyTable (doyOfDoe ((z + 719468) % 146097)).toNat (by omega)
  rw [htc] at ht
  omega

theorem compact_scaled (u : Int) :
    compactInt (epochUsToDt u) * 1000000 + ((epochUsToDt u).usec : Int) = scaledValUs u := by
  obtain ⟨hm1, hm12, hdy1, hdy31⟩ := civil_md_bounds (u / 86400000000)
  have hy : (epochUsToDt u).year = (civilFromDays (u / 86400000000)).1 := rfl
  have hmo : (((epochUsToDt u).month : Nat) : Int) = (civilFromDays (u / 86400000000)).2.1 :=
    Int.toNat_of_nonneg (by omega)
  have hda : (((epochUsToDt u).day : Nat) : Int) = (civilFromDays (u / 86400000000)).2.2 :=
    Int.toNat_of_nonneg (by omega)
  have hho : (((epochUsToDt u).hour : Nat) : Int) = u % 86400000000 / 3600000000 :=
    Int.toNat_of_nonneg (by omega)
  have hmi : (((epochUsToDt u).minute : Nat) : Int) = u % 86400000000 / 60000000 % 60 :=
    Int.toNat_of_nonneg (by omega)
  have hse : (((epochUsToDt u).second : Nat) : Int) = u % 86400000000 / 1000000 % 60 :=
    Int.toNat_of_nonneg (by omega)
  have hus : (((epochUsToDt u).usec : Nat) : Int) = u % 86400000000 % 1000000 :=
    Int.toNat_of_nonneg (by omega)
  unfold compactInt scaledValUs dayCompact todCompactUs
  dsimp only
  rw [hy, hmo, hda, hho, hmi, hse, hus]
  ring

theorem utcFloat_eq_scaled (u : Int) :
    utcFloatOfEpochUs u = (scaledValUs u : ℚ) / 1000000 := by
  have key := compact_scaled u
  unfold utcFloatOfEpochUs utcFloatOfDt
  rw [← key]
  push_cast
  ring

theorem utcFloat_mono {u v : Int} (h : u ≤ v) :
    utcFloatOfEpochUs u ≤ utcFloatOfEpochUs v := by
  rw [utcFloat_eq_scaled, utcFloat_eq_scaled]
  have hs : ((scaledValUs u : ℚ)) ≤ (scaledValUs v : ℚ) := by
    exact_mod_cast scaledValUs_mono h
  linarith

theorem utcFloat_concrete_lower :
    utcFloatOfEpochUs (-62162121600000000) = (229000000 : ℚ) := by
  have h1 : compactInt (epochUsToDt (-62162121600000000)) = 229000000 := by decide
  have h2 : (epochUsToDt (-62162121600000000)).usec = 0 := by decide
  unfold utcFloatOfEpochUs utcFloatOfDt
  rw [h1, h2]
  norm_num

theorem utcFloat_nonneg {u : Int} (h : -62162121600000000 ≤ u) :
    0 ≤ utcFloatOfEpochUs u := by
  have h1 := utcFloat_mono h
  rw [utcFloat_concrete_lower] at h1
  linarith

-- days_ago lemmas

/-- C6: for every negative day count, `days_ago` returns the same result
as `days_ago 0`: negative offsets clamp to zero rather than erroring. -/
theorem claim_C6_negative_days_clamp (n : Int) (tz : Tz) (now : Int) (h : n < 0) :
    days_ago n tz now = days_ago 0 tz now := by
  unfold days_ago
  have h1 : (if n < 0 then (0 : Int) else n) = 0 := if_pos h
  have h2 : (if (0 : Int) < 0 then (0 : Int) else 0) = 0 := if_neg (lt_irrefl 0)
  rw [h1, h2]

theorem days_ago_zero_eq_spec (tz : Tz) (now : Int) :
    days_ago 0 tz now = epochUsToDt (specLocalMidnightUtcUs tz now) := by
  unfold days_ago specLocalMidnightUtcUs currentLocalDay
  have h2 : (if (0 : Int) < 0 then (0 : Int) else 0) = 0 := if_neg (lt_irrefl 0)
  rw [h2]
  ring_nf

theorem epochUsToDt_day_start (d : Int) :
    (epochUsToDt (d * 86400000000)).hour = 0 ∧ (epochUsToDt (d * 86400000000)).minute = 0 ∧
    (epochUsToDt (d * 86400000000)).second = 0 ∧ (epochUsToDt (d * 86400000000)).usec = 0 := by
  have hm : d * 86400000000 % 86400000000 = 0 := by omega
  refine ⟨?_, ?_, ?_, ?_⟩
  · show (d * 86400000000 % 86400000000 / 3600000000).toNat = 0
    rw [hm]
    rfl
  · show (d * 86400000000 % 86400000000 / 60000000 % 60).toNat = 0
    rw [hm]
    rfl
  · show (d * 86400000000 % 86400000000 / 1000000 % 60).toNat = 0
    rw [hm]
    rfl
  · show (d * 86400000000 % 86400000000 % 1000000).toNat = 0
    rw [hm]
    rfl

-- char/digit lemmas

theorem char_eq_of_toNat {c d : Char} (h : c.toNat = d.toNat) : c = d := by
  apply Char.ext
  exact UInt32.ext h

theorem digitChar_isDigit {k : Nat} (h : k < 10) : (Nat.digitChar k).isDigit = true := by
  interval_cases k <;> decide

theorem digitVal_digitChar {k : Nat} (h : k < 10) : digitVal (Nat.digitChar k) = k := by
  interval_cases k <;> decide

theorem isDigit_toNat {c : Char} (h : c.isDigit = true) : 48 ≤ c.toNat ∧ c.toNat ≤ 57 := by
  simp [Char.isDigit] at h
  obtain ⟨h1, h2⟩ := h
  exact ⟨h1, h2⟩

theorem digitChar_digitVal {c : Char} (h : c.isDigit = true) :
    Nat.digitChar (digitVal c) = c := by
  obtain ⟨h1, h2⟩ := isDigit_toNat h
  unfold digitVal
  interval_cases hn : c.toNat <;>
    exact char_eq_of_toNat (by rw [hn]; decide)

theorem digitVal_lt {c : Char} (h : c.isDigit = true) : digitVal c < 10 := by
  obtain ⟨h1, h2⟩ := isDigit_toNat h
  unfold digitVal
  omega

-- digit list lemmas

theorem natOfDigits_aux (a : Nat) (l : List Char) :
    List.foldl (fun x c => 10 * x + digitVal c) a l = a * 10 ^ l.length + natOfDigits l := by
  induction l generalizing a with
  | nil => simp [natOfDigits]
  | cons c t ih =>
    show List.foldl _ (10 * a + digitVal c) t = _
    rw [ih]
    have h2 : natOfDigits (c :: t) = digitVal c * 10 ^ t.length + natOfDigits t := by
      show List.foldl _ (10 * 0 + digitVal c) t = _
      rw [ih]
      ring_nf
    rw [h2, List.length_cons]
    ring

theorem natOfDigits_two {n : Nat} (h : n < 100) :
    natOfDigits [Nat.digitChar (n / 10), Nat.digitChar (n % 10)] = n := by
  simp [natOfDigits, List.foldl, digitVal_digitChar (show n / 10 < 10 by omega),
    digitVal_digitChar (show n % 10 < 10 by omega)]
  omega

theorem natOfDigits_four {n : Nat} (h : n < 10000) :
    natOfDigits [Nat.digitChar (n / 100 / 10), Nat.digitChar (n / 100 % 10),
      Nat.digitChar (n % 100 / 10), Nat.digitChar (n % 100 % 10)] = n := by
  simp [natOfDigits, List.foldl,
    digitVal_digitChar (show n / 100 / 10 < 10 by omega),
    digitVal_digitChar (show n / 100 % 10 < 10 by omega),
    digitVal_digitChar (show n % 100 / 10 < 10 by omega),
    digitVal_digitChar (show n % 100 % 10 < 10 by omega)]
  omega

theorem natOfDigits_six {n : Nat} (h : n < 1000000) :
    natOfDigits [Nat.digitChar (n / 10000 / 10), Nat.digitChar (n / 10000 % 10),
      Nat.digitChar (n / 100 % 100 / 10), Nat.digitChar (n / 100 % 100 % 10),
      Nat.digitChar (n % 100 / 10), Nat.digitChar (n % 100 % 10)] = n := by
  simp [natOfDigits, List.foldl,
    digitVal_digitChar (show n / 10000 / 10 < 10 by omega),
    digitVal_digitChar (show n / 10000 % 10 < 10 by omega),
    digitVal_digitChar (show n / 100 % 100 / 10 < 10 by omega),
    digitVal_digitChar (show n / 100 % 100 % 10 < 10 by omega),
    digitVal_digitChar (show n % 100 / 10 < 10 by omega),
    digitVal_digitChar (show n % 100 % 10 < 10 by omega)]
  omega

theorem parseFrac_pad6 {n : Nat} (h : n < 1000000) : parseFrac (pad6 n) = some n := by
  unfold parseFrac pad6 pad2
  simp only [List.cons_append, List.nil_append, List.length_cons, List.length_nil,
    List.all_cons, List.all_nil, Bool.and_eq_true,
    digitChar_isDigit (show n / 10000 / 10 < 10 by omega),
    digitChar_isDigit (show n / 10000 % 10 < 10 by omega),
    digitChar_isDigit (show n / 100 % 100 / 10 < 10 by omega),
    digitChar_isDigit (show n / 100 % 100 % 10 < 10 by omega),
    digitChar_isDigit (show n % 100 / 10 < 10 by omega),
    digitChar_isDigit (show n % 100 % 10 < 10 by omega)]
  rw [if_pos (by norm_num)]
  rw [natOfDigits_six h]
  norm_num

theorem daysInMonth_le (y : Int) (m : Nat) : daysInMonth y m ≤ 31 := by
  unfold daysInMonth
  split
  any_goals norm_num
  split_ifs <;> norm_num

/-- C2: for every valid datetime (microsecond precision), formatting it to
the compact float-string form `YYYYMMDDHHMMSS.ffffff` and parsing that
string back yields a datetime equal to the original. -/
theorem claim_C2_float_string_roundtrip (dt : DT) (h : validDT dt = true) :
    float_string_to_dt (dt_to_float_string dt) = some dt := by
  have hvalid := h
  obtain ⟨y, mo, da, ho, mi, se, us⟩ := dt
  unfold validDT at h
  simp only [Bool.and_eq_true, decide_eq_true_eq] at h
  obtain ⟨⟨⟨⟨⟨⟨⟨⟨⟨hy1, hy2⟩, hm1⟩, hm2⟩, hd1⟩, hd2⟩, hh23⟩, hmi59⟩, hs59⟩, hus6⟩ := h
  have hyt : ((y.toNat : Int)) = y := Int.toNat_of_nonneg (by omega)
  have hytb : 1 ≤ y.toNat ∧ y.toNat ≤ 9999 := by omega
  have hd31 : da ≤ 31 := le_trans hd2 (daysInMonth_le y mo)
  have hdig : ∀ k : Nat, k ≤ 9999 → (Nat.digitChar (k % 10)).isDigit = true := fun k _ =>
    digitChar_isDigit (by omega)
  -- expand the rendered string
  simp only [dt_to_float_string, pad4, pad2, List.cons_append, List.nil_append]
  simp only [float_string_to_dt]
  simp only [List.all_cons, List.all_nil, Bool.and_eq_true,
    digitChar_isDigit (show y.toNat / 100 / 10 < 10 by omega),
    digitChar_isDigit (show y.toNat / 100 % 10 < 10 by omega),
    digitChar_isDigit (show y.toNat % 100 / 10 < 10 by omega),
    digitChar_isDigit (show y.toNat % 100 % 10 < 10 by omega),
    digitChar_isDigit (show mo / 10 < 10 by omega),
    digitChar_isDigit (show mo % 10 < 10 by omega),
    digitChar_isDigit (show da / 10 < 10 by omega),
    digitChar_isDigit (show da % 10 < 10 by omega),
    digitChar_isDigit (show ho / 10 < 10 by omega),
    digitChar_isDigit (show ho % 10 < 10 by omega),
    digitChar_isDigit (show mi / 10 < 10 by omega),
    digitChar_isDigit (show mi % 10 < 10 by omega),
    digitChar_isDigit (show se / 10 < 10 by omega),
    digitChar_isDigit (show se % 10 < 10 by omega),
    if_true]
  simp only [and_self, and_true, true_and, if_true]
  rw [natOfDigits_four (show y.toNat < 10000 by omega),
      natOfDigits_two (show mo < 100 by omega),
      natOfDigits_two (show da < 100 by omega),
      natOfDigits_two (show ho < 100 by omega),
      natOfDigits_two (show mi < 100 by omega),
      natOfDigits_two (show se < 100 by omega)]
  by_cases hus0 : us = 0
  · subst hus0
    rw [if_pos rfl]
    have hpf : parseFrac ['0'] = some 0 := rfl
    rw [hpf]
    unfold buildDT
    rw [hyt]
    dsimp only
    rw [if_pos hvalid]
  · rw [if_neg hus0]
    rw [parseFrac_pad6 (show us < 1000000 by omega)]
    unfold buildDT
    rw [hyt]
    dsimp only
    rw [if_pos hvalid]

-- C10 normalization lemma

/-- C10: for every datetime with microsecond field 0, `dt_to_float_string`
with the default format renders the fractional part as the normalized
`"0"` — five characters shorter than strftime's six-digit `"000000"`
padding, and distinct from it. -/
theorem claim_C10_zero_fraction_normalized (dt : DT) (h : dt.usec = 0) :
    dt_to_float_string dt ++ "00000" = strftimeFloatString dt ∧
    dt_to_float_string dt ≠ strftimeFloatString dt := by
  obtain ⟨y, mo, da, ho, mi, se, us⟩ := dt
  simp only at h
  subst h
  constructor
  · apply String.ext
    simp [dt_to_float_string, strftimeFloatString, pad4, pad2, pad6]
    decide
  · intro heq
    have hlen : (dt_to_float_string ⟨y, mo, da, ho, mi, se, 0⟩).data.length = 16 := by
      simp [dt_to_float_string, pad4, pad2]
    have hlen2 : (strftimeFloatString ⟨y, mo, da, ho, mi, se, 0⟩).data.length = 21 := by
      simp [strftimeFloatString, pad4, pad2, pad6]
    rw [heq] at hlen
    omega

-- duration parser soundness

theorem splitAtColon_eq {l : List Char} {p : List Char × List Char}
    (h : splitAtColon l = some p) : l = p.1 ++ ':' :: p.2 := by
  induction l generalizing p with
  | nil => simp [splitAtColon] at h
  | cons c t ih =>
    unfold splitAtColon at h
    split_ifs at h with hc
    · subst hc
      injection h with h2
      subst h2
      rfl
    · cases hs : splitAtColon t with
      | none => rw [hs] at h; simp at h
      | some q =>
        rw [hs] at h
        injection h with h2
        subst h2
        have ht := ih hs
        simp [ht]

theorem unitSecondsOf_mem {u : List Char} {m : Nat} (h : unitSecondsOf u = some m) :
    ∃ nm : String, nm ∈ unitNames ∧ u = nm.data := by
  unfold unitSecondsOf at h
  split_ifs at h with h1 h2 h3 h4 h5
  · exact ⟨"seconds", by simp [unitNames], h1⟩
  · exact ⟨"minutes", by simp [unitNames], h2⟩
  · exact ⟨"hours", by simp [unitNames], h3⟩
  · exact ⟨"days", by simp [unitNames], h4⟩
  · exact ⟨"weeks", by simp [unitNames], h5⟩

theorem parseDuration_sound {s : String} {k : Nat} (h : parseDuration s = some k) :
    durGrammar s := by
  unfold parseDuration at h
  cases hsp : splitAtColon s.data with
  | none => rw [hsp] at h; simp at h
  | some p =>
    rw [hsp] at h
    dsimp only at h
    split_ifs at h with hcond
    · cases hu : unitSecondsOf p.2 with
      | none => rw [hu] at h; simp at h
      | some m =>
        obtain ⟨nm, hnm, hdata⟩ := unitSecondsOf_mem hu
        refine ⟨p.1, nm, hcond.1, hcond.2, hnm, ?_⟩
        have hsplit := splitAtColon_eq hsp
        rw [← hdata]
        exact congrArg String.mk hsplit

theorem natOfDigits_pair {a b : Char} :
    natOfDigits [a, b] = 10 * digitVal a + digitVal b := by
  simp [natOfDigits, List.foldl]

theorem natOfDigits_quad {a b c d : Char} :
    natOfDigits [a, b, c, d] =
      1000 * digitVal a + 100 * digitVal b + 10 * digitVal c + digitVal d := by
  simp [natOfDigits, List.foldl]
  ring

theorem pad2_inverse {a b : Char} (ha : a.isDigit = true) (hb : b.isDigit = true) :
    pad2 (natOfDigits [a, b]) = [a, b] := by
  have hva := digitVal_lt ha
  have hvb := digitVal_lt hb
  rw [natOfDigits_pair]
  unfold pad2
  rw [show (10 * digitVal a + digitVal b) / 10 = digitVal a by omega,
      show (10 * digitVal a + digitVal b) % 10 = digitVal b by omega,
      digitChar_digitVal ha, digitChar_digitVal hb]

theorem pad4_inverse {a b c d : Char} (ha : a.isDigit = true) (hb : b.isDigit = true)
    (hc : c.isDigit = true) (hd : d.isDigit = true) :
    pad4 (natOfDigits [a, b, c, d]) = [a, b, c, d] := by
  have hva := digitVal_lt ha
  have hvb := digitVal_lt hb
  have hvc := digitVal_lt hc
  have hvd := digitVal_lt hd
  rw [natOfDigits_quad]
  unfold pad4 pad2
  rw [show (1000 * digitVal a + 100 * digitVal b + 10 * digitVal c + digitVal d) / 100
        = 10 * digitVal a + digitVal b by omega,
      show (1000 * digitVal a + 100 * digitVal b + 10 * digitVal c + digitVal d) % 100
        = 10 * digitVal c + digitVal d by omega,
      show (10 * digitVal a + digitVal b) / 10 = digitVal a by omega,
      show (10 * digitVal a + digitVal b) % 10 = digitVal b by omega,
      show (10 * digitVal c + digitVal d) / 10 = digitVal c by omega,
      show (10 * digitVal c + digitVal d) % 10 = digitVal d by omega,
      digitChar_digitVal ha, digitChar_digitVal hb, digitChar_digitVal hc,
      digitChar_digitVal hd]
  rfl

theorem parseTsChars_sound {l : List Char} {dt : DT} (h : parseTsChars l = some dt) :
    validDT dt = true ∧ dt.usec = 0 ∧
      (l = (renderDate dt).data ∨ l = (renderDateTime dt).data) := by
  unfold parseTsChars at h
  split at h
  · rename_i a1 a2 a3 a4 b1 b2 e1 e2
    split_ifs at h with hdig
    · simp only [List.all_cons, List.all_nil, Bool.and_eq_true] at hdig
      obtain ⟨hg1, hg2, hg3, hg4, hg5, hg6, hg7, hg8, -⟩ := hdig
      unfold buildDT at h
      dsimp only at h
      split_ifs at h with hval
      injection h with h2
      subst h2
      refine ⟨hval, rfl, Or.inl ?_⟩
      unfold renderDate
      show _ = (pad4 (((natOfDigits [a1, a2, a3, a4] : Nat) : Int)).toNat
        ++ '-' :: pad2 (natOfDigits [b1, b2]) ++ '-' :: pad2 (natOfDigits [e1, e2]))
      rw [Int.toNat_natCast, pad4_inverse hg1 hg2 hg3 hg4, pad2_inverse hg5 hg6,
        pad2_inverse hg7 hg8]
      rfl
  · rename_i a1 a2 a3 a4 b1 b2 e1 e2 f1 f2 g1 g2 k1 k2
    split_ifs at h with hdig
    · simp only [List.all_cons, List.all_nil, Bool.and_eq_true] at hdig
      obtain ⟨hg1, hg2, hg3, hg4, hg5, hg6, hg7, hg8, hg9, hg10, hg11, hg12, hg13, hg14, -⟩ :=
        hdig
      unfold buildDT at h
      dsimp only at h
      split_ifs at h with hval
      injection h with h2
      subst h2
      refine ⟨hval, rfl, Or.inr ?_⟩
      unfold renderDateTime
      show _ = (pad4 (((natOfDigits [a1, a2, a3, a4] : Nat) : Int)).toNat
        ++ '-' :: pad2 (natOfDigits [b1, b2]) ++ '-' :: pad2 (natOfDigits [e1, e2])
        ++ ' ' :: pad2 (natOfDigits [f1, f2]) ++ ':' :: pad2 (natOfDigits [g1, g2])
        ++ ':' :: pad2 (natOfDigits [k1, k2]))
      rw [Int.toNat_natCast, pad4_inverse hg1 hg2 hg3 hg4, pad2_inverse hg5 hg6,
        pad2_inverse hg7 hg8, pad2_inverse hg9 hg10, pad2_inverse hg11 hg12,
        pad2_inverse hg13 hg14]
      rfl
  · simp at h

theorem ts_sound {tz : Tz} {s : String} {x : Int} (h : ts_to_utc_us tz s = some x) :
    tsGrammar s := by
  unfold ts_to_utc_us at h
  cases hp : parseTsChars s.data with
  | none => rw [hp] at h; simp at h
  | some dt =>
    obtain ⟨hval, hus, hor⟩ := parseTsChars_sound hp
    refine ⟨dt, hval, hus, ?_⟩
    rcases hor with h1 | h1
    · exact Or.inl (by exact congrArg String.mk h1)
    · exact Or.inr (by exact congrArg String.mk h1)

-- dict lemmas

theorem mem_upsert {acc : List (String × Range)} {a p : String × Range}
    (h : p ∈ upsert acc a) : p ∈ acc ∨ p = a := by
  unfold upsert at h
  split_ifs at h with hany
  · rw [List.mem_map] at h
    obtain ⟨q, hq, hfq⟩ := h
    by_cases hk : q.1 = a.1
    · rw [if_pos hk] at hfq
      right
      rw [← hfq, hk]
    · rw [if_neg hk] at hfq
      left
      rw [← hfq]
      exact hq
  · rw [List.mem_append] at h
    rcases h with h | h
    · exact Or.inl h
    · right
      simpa using h

theorem mem_foldl_upsert {l : List (String × Range)} :
    ∀ {acc : List (String × Range)} {p : String × Range},
      p ∈ l.foldl upsert acc → p ∈ acc ∨ p ∈ l := by
  induction l with
  | nil => intro acc p h; exact Or.inl h
  | cons a t ih =>
    intro acc p h
    rcases ih h with h1 | h1
    · rcases mem_upsert h1 with h2 | h2
      · exact Or.inl h2
      · exact Or.inr (by simp [h2])
    · exact Or.inr (List.mem_cons_of_mem _ h1)

theorem mem_dictOfList {l : List (String × Range)} {p : String × Range}
    (h : p ∈ dictOfList l) : p ∈ l := by
  rcases mem_foldl_upsert h with h1 | h1
  · simp at h1
  · exact h1

theorem upsert_not_mem {acc : List (String × Range)} {a : String × Range}
    (h : a.1 ∉ acc.map Prod.fst) : upsert acc a = acc ++ [a] := by
  unfold upsert
  rw [if_neg]
  intro hc
  simp only [List.any_eq_true, decide_eq_true_eq] at hc
  obtain ⟨q, hq, hq2⟩ := hc
  exact h (by rw [← hq2]; exact List.mem_map_of_mem _ hq)

theorem foldl_upsert_nodup {l : List (String × Range)} :
    ∀ {acc : List (String × Range)}, ((acc ++ l).map Prod.fst).Nodup →
      l.foldl upsert acc = acc ++ l := by
  induction l with
  | nil => intro acc _; simp
  | cons a t ih =>
    intro acc h
    have hnm : a.1 ∉ acc.map Prod.fst := by
      intro hc
      rw [List.map_append, List.nodup_append] at h
      exact h.2.2 hc (by simp)
    show List.foldl upsert (upsert acc a) t = acc ++ a :: t
    rw [upsert_not_mem hnm]
    have h2 : (((acc ++ [a]) ++ t).map Prod.fst).Nodup := by
      rw [show (acc ++ [a]) ++ t = acc ++ a :: t by simp]
      exact h
    rw [ih h2]
    simp

theorem dictOfList_nodup {l : List (String × Range)} (h : (l.map Prod.fst).Nodup) :
    dictOfList l = l := by
  have h2 : ((([] : List (String × Range)) ++ l).map Prod.fst).Nodup := by simpa using h
  simpa [dictOfList] using foldl_upsert_nodup h2

-- mapOpt lemmas

theorem mapOpt_eq_map {α β : Type} {f : α → Option β} {g : α → β} :
    ∀ {l : List α}, (∀ x ∈ l, f x = some (g x)) → mapOpt f l = some (l.map g) := by
  intro l
  induction l with
  | nil => intro _; rfl
  | cons a t ih =>
    intro hall
    unfold mapOpt
    rw [hall a (by simp), ih (fun x hx => hall x (by simp [hx]))]
    rfl

theorem mapOpt_mem {α β : Type} {f : α → Option β} :
    ∀ {l : List α} {out : List β}, mapOpt f l = some out →
      ∀ b ∈ out, ∃ x ∈ l, f x = some b := by
  intro l
  induction l with
  | nil =>
    intro out h b hb
    unfold mapOpt at h
    injection h with h2
    subst h2
    simp at hb
  | cons a t ih =>
    intro out h b hb
    unfold mapOpt at h
    cases hfa : f a with
    | none => rw [hfa] at h; simp at h
    | some b0 =>
      rw [hfa] at h
      cases hmt : mapOpt f t with
      | none => rw [hmt] at h; simp at h
      | some bs =>
        rw [hmt] at h
        injection h with h2
        subst h2
        rcases List.mem_cons.mp hb with h3 | h3
        · exact ⟨a, by simp, by rw [hfa, h3]⟩
        · obtain ⟨x, hx, hfx⟩ := ih hmt b h3
          exact ⟨x, by simp [hx], hfx⟩

theorem splitCommaChars_ne_nil (l : List Char) : splitCommaChars l ≠ [] := by
  induction l with
  | nil => simp [splitCommaChars]
  | cons c t ih =>
    unfold splitCommaChars
    split_ifs
    · simp
    · cases splitCommaChars t <;> simp

theorem splitOnComma_ne_nil (s : String) : splitOnComma s ≠ [] := by
  unfold splitOnComma
  simp [splitCommaChars_ne_nil]

theorem daysFromCivil_lower {y m d : Int} (hy : 1 ≤ y) (hm1 : 1 ≤ m) (hm2 : m ≤ 12)
    (hd : 1 ≤ d) : -719468 ≤ daysFromCivil y m d := by
  unfold daysFromCivil yearStartDoe
  dsimp only
  split_ifs <;> omega

theorem validDT_fields {dt : DT} (h : validDT dt = true) :
    1 ≤ dt.year ∧ dt.year ≤ 9999 ∧ 1 ≤ dt.month ∧ dt.month ≤ 12 ∧ 1 ≤ dt.day ∧
    dt.day ≤ 31 ∧ dt.hour ≤ 23 ∧ dt.minute ≤ 59 ∧ dt.second ≤ 59 ∧ dt.usec ≤ 999999 := by
  unfold validDT at h
  simp only [Bool.and_eq_true, decide_eq_true_eq] at h
  obtain ⟨⟨⟨⟨⟨⟨⟨⟨⟨hy1, hy2⟩, hm1⟩, hm2⟩, hd1⟩, hd2⟩, hh23⟩, hmi59⟩, hs59⟩, hus6⟩ := h
  exact ⟨hy1, hy2, hm1, hm2, hd1, le_trans hd2 (daysInMonth_le _ _), hh23, hmi59, hs59, hus6⟩

theorem ts_lower {tz : Tz} {s : String} {x : Int} (htz : tzBounded tz)
    (h : ts_to_utc_us tz s = some x) : -62162121600000000 ≤ x := by
  unfold ts_to_utc_us at h
  cases hp : parseTsChars s.data with
  | none => rw [hp] at h; simp at h
  | some dt =>
    rw [hp] at h
    obtain ⟨hval, -, -⟩ := parseTsChars_sound hp
    obtain ⟨hy1, hy2, hm1, hm2, hd1, hd31, hh23, hmi59, hs59, hus6⟩ := validDT_fields hval
    have hld : -719468 ≤ daysFromCivil dt.year dt.month dt.day :=
      daysFromCivil_lower hy1 (by exact_mod_cast hm1) (by exact_mod_cast hm2)
        (by exact_mod_cast hd1)
    have hoff := htz (daysFromCivil dt.year dt.month dt.day)
    simp only [Option.map_some] at h
    injection h with h2
    subst h2
    dsimp only
    omega

theorem utcFloat_ts_nonneg {tz : Tz} {s : String} {x : Int} (htz : tzBounded tz)
    (h : ts_to_utc_us tz s = some x) : 0 ≤ utcFloatOfEpochUs x :=
  utcFloat_nonneg (ts_lower htz h)

/-- C1: calling the resolver with no arguments returns exactly the
single-entry mapping `{"all": (0, +inf)}`. -/
theorem claim_C1_no_args_all (tz : Tz) (now : Int) :
    get_time_ranges_and_args { tz := tz, nowUs := now } =
      some [("all", ((0 : ℚ), XFloat.inf))] := rfl

/-- C3: for all numeric bounds, `start` alone yields `(start, +inf)`,
`end` alone `(0, end)`, and both `(start, end)`, each under a descriptor
key naming the supplied arguments. -/
theorem claim_C3_start_end_floats (s e : ℚ) (tz : Tz) (now : Int) :
    get_time_ranges_and_args { startF := some s, tz := tz, nowUs := now } =
      some [("start=" ++ fmtRat s, (s, XFloat.inf))] ∧
    get_time_ranges_and_args { endF := some e, tz := tz, nowUs := now } =
      some [("end=" ++ fmtRat e, ((0 : ℚ), XFloat.fin e))] ∧
    get_time_ranges_and_args { startF := some s, endF := some e, tz := tz, nowUs := now } =
      some [("start=" ++ fmtRat s ++ ",end=" ++ fmtRat e, (s, XFloat.fin e))] :=
  ⟨rfl, rfl, rfl⟩

/-- C4: for every duration string that parses, `since` alone produces the
single range whose start is the converted `now - duration` value, whose
end is `+infinity`, and whose start is strictly below its end. -/
theorem claim_C4_since_range (ds : String) (k : Nat) (tz : Tz) (now : Int)
    (h : parseDuration ds = some k) :
    get_time_ranges_and_args { since := some ds, tz := tz, nowUs := now } =
      some [("since=" ++ ds,
        (utcFloatOfEpochUs (now - (k : Int) * 1000000), XFloat.inf))] ∧
    XFloat.lt (XFloat.fin (utcFloatOfEpochUs (now - (k : Int) * 1000000))) XFloat.inf := by
  constructor
  · unfold get_time_ranges_and_args tsEntries sinceEntries startEndEntries
    dsimp only
    rw [h]
    rfl
  · trivial

theorem string_append_cancel {p v w : String} (h : p ++ v = p ++ w) : v = w := by
  have hd : p.data ++ v.data = p.data ++ w.data := congrArg String.data h
  have h2 := List.append_cancel_left hd
  cases v
  cases w
  exact congrArg String.mk h2

/-- C8 (amended): when `start_ts` is a comma-separated list of pairwise
distinct parseable values, the resolver returns one entry per value
(fan-out), so the result has exactly as many entries as values. -/
theorem claim_C8_fanout_amended (s : String) (tz : Tz) (now : Int) (w : String → Int)
    (hw : ∀ v ∈ splitOnComma s, ts_to_utc_us tz v = some (w v))
    (hnd : (splitOnComma s).Nodup) :
    get_time_ranges_and_args { start_ts := some s, tz := tz, nowUs := now } =
      some ((splitOnComma s).map (fun v =>
        ("start_ts=" ++ v, (utcFloatOfEpochUs (w v), XFloat.inf)))) ∧
    ((splitOnComma s).map (fun v =>
        ("start_ts=" ++ v, (utcFloatOfEpochUs (w v), XFloat.inf)))).length =
      (splitOnComma s).length := by
  constructor
  · unfold get_time_ranges_and_args tsEntries sinceEntries startEndEntries
    dsimp only
    rw [mapOpt_eq_map (g := fun v => ("start_ts=" ++ v, (utcFloatOfEpochUs (w v), XFloat.inf)))
      (fun v hv => by rw [hw v hv]; rfl)]
    dsimp only
    simp only [List.nil_append, List.append_nil]
    have hne : (splitOnComma s).map
        (fun v => ("start_ts=" ++ v, (utcFloatOfEpochUs (w v), XFloat.inf))) ≠ [] := by
      simp [splitOnComma_ne_nil s]
    rw [if_neg (by simpa [List.isEmpty_iff] using hne)]
    have hkeys : (((splitOnComma s).map
        (fun v => ("start_ts=" ++ v, (utcFloatOfEpochUs (w v), XFloat.inf)))).map
          Prod.fst).Nodup := by
      simp only [List.map_map]
      have hinj : Function.Injective (fun v : String => "start_ts=" ++ v) :=
        fun a b hab => string_append_cancel hab
      refine hnd.map ?_
      intro a b hab
      exact string_append_cancel hab
    rw [dictOfList_nodup hkeys]
  · simp

/-- C8 counterexample: a comma-separated list of two (equal) timestamp
values produces one dict entry, not two. -/
theorem claim_C8_counterexample :
    (splitOnComma "2023-07-22,2023-07-22").length = 2 ∧
    get_time_ranges_and_args
        { start_ts := some "2023-07-22,2023-07-22", tz := utcTz, nowUs := 0 } =
      some [("start_ts=2023-07-22", (utcFloatOfEpochUs 1689984000000000, XFloat.inf))] := by
  constructor
  · rfl
  · rfl

/-- C5 counterexample: with `start=2.0` and `end=1.0` the resolver returns
the finite range `(2, 1)`, whose start exceeds its end. -/
theorem claim_C5_counterexample :
    get_time_ranges_and_args { startF := some 2, endF := some 1, tz := utcTz, nowUs := 0 } =
      some [("start=2.0,end=1.0", ((2 : ℚ), XFloat.fin 1))] ∧
    ¬ ((2 : ℚ) ≤ 1) := by
  constructor
  · rfl
  · norm_num

/-- C5 (amended): every finite `(start, end)` range the resolver produces
satisfies `start ≤ end`, provided the timezone offsets are bounded by a
day, `now` is at or after the epoch, the numeric `start` does not exceed
the numeric `end`, the numeric `end` is nonnegative, and every parsed
`start_ts` instant is at or before every parsed `end_ts` instant. -/
theorem claim_C5_ranges_ordered_amended (a : TRArgs) (l : List (String × Range))
    (htz : tzBounded a.tz) (hnow : 0 ≤ a.nowUs)
    (hse : ∀ s e : ℚ, a.startF = some s → a.endF = some e → s ≤ e)
    (he0 : ∀ e : ℚ, a.endF = some e → 0 ≤ e)
    (hts : ∀ u v : String, a.start_ts = some u → a.end_ts = some v →
      ∀ su ∈ splitOnComma u, ∀ sv ∈ splitOnComma v, ∀ x y : Int,
        ts_to_utc_us a.tz su = some x → ts_to_utc_us a.tz sv = some y → x ≤ y)
    (hres : get_time_ranges_and_args a = some l) :
    ∀ k : String, ∀ s e : ℚ, (k, (s, XFloat.fin e)) ∈ l → s ≤ e := by
  intro k s e hmem
  unfold get_time_ranges_and_args at hres
  cases h2 : tsEntries a with
  | none => rw [h2] at hres; simp at hres
  | some e2 =>
    cases h3 : sinceEntries a with
    | none => rw [h2, h3] at hres; simp at hres
    | some e3 =>
      rw [h2, h3] at hres
      dsimp only at hres
      injection hres with hl
      subst hl
      have hmem2 := mem_dictOfList hmem
      by_cases hemp : (startEndEntries a ++ e2 ++ e3).isEmpty = true
      · rw [if_pos hemp] at hmem2
        simp at hmem2
      · rw [if_neg hemp] at hmem2
        rw [List.mem_append, List.mem_append] at hmem2
        rcases hmem2 with (hA | hB) | hC
        · -- numeric start/end entries
          unfold startEndEntries at hA
          cases hsf : a.startF with
          | some sv =>
            cases hef : a.endF with
            | some ev =>
              rw [hsf, hef] at hA
              simp only [List.mem_singleton, Prod.mk.injEq, XFloat.fin.injEq] at hA
              obtain ⟨-, hs, he⟩ := hA
              rw [hs, he]
              exact hse sv ev hsf hef
            | none =>
              rw [hsf, hef] at hA
              simp at hA
          | none =>
            cases hef : a.endF with
            | some ev =>
              rw [hsf, hef] at hA
              simp only [List.mem_singleton, Prod.mk.injEq, XFloat.fin.injEq] at hA
              obtain ⟨-, hs, he⟩ := hA
              rw [hs, he]
              exact he0 ev hef
            | none =>
              rw [hsf, hef] at hA
              simp at hA
        · -- timestamp entries
          unfold tsEntries at h2
          cases hst : a.start_ts with
          | some sts =>
            cases het : a.end_ts with
            | some ets =>
              rw [hst, het] at h2
              dsimp only at h2
              cases hms : mapOpt (fun v => (ts_to_utc_us a.tz v).map (fun x => (v, x)))
                  (splitOnComma sts) with
              | none => rw [hms] at h2; simp at h2
              | some ss =>
                cases hme : mapOpt (fun v => (ts_to_utc_us a.tz v).map (fun x => (v, x)))
                    (splitOnComma ets) with
                | none => rw [hms, hme] at h2; simp at h2
                | some es =>
                  rw [hms, hme] at h2
                  dsimp only at h2
                  injection h2 with h2e
                  subst h2e
                  rw [List.mem_flatMap] at hB
                  obtain ⟨sp, hsp, hBm⟩ := hB
                  rw [List.mem_map] at hBm
                  obtain ⟨ep, hep, hBe⟩ := hBm
                  obtain ⟨su, hsu, hfsu⟩ := mapOpt_mem hms sp hsp
                  obtain ⟨sv, hsv, hfsv⟩ := mapOpt_mem hme ep hep
                  cases hx : ts_to_utc_us a.tz su with
                  | none => rw [hx] at hfsu; simp at hfsu
                  | some x =>
                    cases hy : ts_to_utc_us a.tz sv with
                    | none => rw [hy] at hfsv; simp at hfsv
                    | some y =>
                      rw [hx] at hfsu
                      rw [hy] at hfsv
                      injection hfsu with hfsu2
                      injection hfsv with hfsv2
                      have hxy := hts sts ets hst het su hsu sv hsv x y hx hy
                      have hmono := utcFloat_mono hxy
                      simp only [Prod.mk.injEq, XFloat.fin.injEq] at hBe
                      obtain ⟨-, hs, he⟩ := hBe
                      rw [← hs, ← he, ← hfsu2, ← hfsv2]
                      exact hmono
            | none =>
              rw [hst, het] at h2
              dsimp only at h2
              obtain ⟨su, hsu, hfsu⟩ := mapOpt_mem h2 _ hB
              cases hx : ts_to_utc_us a.tz su with
              | none => rw [hx] at hfsu; simp at hfsu
              | some x =>
                rw [hx] at hfsu
                simp at hfsu
          | none =>
            cases het : a.end_ts with
            | some ets =>
              rw [hst, het] at h2
              dsimp only at h2
              obtain ⟨sv, hsv, hfsv⟩ := mapOpt_mem h2 _ hB
              cases hy : ts_to_utc_us a.tz sv with
              | none => rw [hy] at hfsv; simp at hfsv
              | some y =>
                rw [hy] at hfsv
                injection hfsv with hfsv2
                have hnn := utcFloat_ts_nonneg htz hy
                have hpair : ((k, (s, XFloat.fin e)) : String × Range) =
                    ("end_ts=" ++ sv, ((0 : ℚ), XFloat.fin (utcFloatOfEpochUs y))) := hfsv2.symm
                simp only [Prod.mk.injEq, XFloat.fin.injEq] at hpair
                obtain ⟨-, hs, he⟩ := hpair
                rw [hs, he]
                exact hnn
            | none =>
              rw [hst, het] at h2
              injection h2 with h2e
              subst h2e
              exact absurd hB (List.not_mem_nil _)
        · -- since/until entries
          unfold sinceEntries at h3
          cases hsi : a.since with
          | some ss =>
            cases hun : a.until_ with
            | some us =>
              rw [hsi, hun] at h3
              dsimp only at h3
              cases hk1 : parseDuration ss with
              | none => rw [hk1] at h3; simp at h3
              | some k1 =>
                cases hk2 : parseDuration us with
                | none => rw [hk1, hk2] at h3; simp at h3
                | some k2 =>
                  rw [hk1, hk2] at h3
                  dsimp only at h3
                  injection h3 with h3e
                  subst h3e
                  simp only [List.mem_singleton, Prod.mk.injEq, XFloat.fin.injEq] at hC
                  obtain ⟨-, hs, he⟩ := hC
                  rw [hs, he]
                  exact utcFloat_mono (by omega)
            | none =>
              rw [hsi, hun] at h3
              dsimp only at h3
              cases hk1 : parseDuration ss with
              | none => rw [hk1] at h3; simp at h3
              | some k1 =>
                rw [hk1] at h3
                dsimp only at h3
                injection h3 with h3e
                subst h3e
                simp at hC
          | none =>
            cases hun : a.until_ with
            | some us =>
              rw [hsi, hun] at h3
              dsimp only at h3
              cases hk2 : parseDuration us with
              | none => rw [hk2] at h3; simp at h3
              | some k2 =>
                rw [hk2] at h3
                dsimp only at h3
                injection h3 with h3e
                subst h3e
                simp only [List.mem_singleton, Prod.mk.injEq, XFloat.fin.injEq] at hC
                obtain ⟨-, hs, he⟩ := hC
                rw [hs, he]
                exact utcFloat_nonneg (by omega)
            | none =>
              rw [hsi, hun] at h3
              injection h3 with h3e
              subst h3e
              exact absurd hC (List.not_mem_nil _)


/-- C7: for every timezone, `days_ago 0` returns the UTC instant of the
timezone's current local midnight: it equals the spec-side description
(civil-day start minus the day's own localize offset, which makes it
correct across DST boundaries), and that instant reads back as local
clock 00:00:00.000000 on the current local day. -/
theorem claim_C7_days_ago_zero_is_local_midnight (tz : Tz) (now : Int) :
    days_ago 0 tz now = epochUsToDt (specLocalMidnightUtcUs tz now) ∧
    specLocalMidnightUtcUs tz now + tz.offsetAtLocalDay (currentLocalDay tz now) * 1000000 =
      currentLocalDay tz now * 86400000000 ∧
    (epochUsToDt (currentLocalDay tz now * 86400000000)).hour = 0 ∧
    (epochUsToDt (currentLocalDay tz now * 86400000000)).minute = 0 ∧
    (epochUsToDt (currentLocalDay tz now * 86400000000)).second = 0 ∧
    (epochUsToDt (currentLocalDay tz now * 86400000000)).usec = 0 := by
  obtain ⟨h1, h2, h3, h4⟩ := epochUsToDt_day_start (currentLocalDay tz now)
  refine ⟨days_ago_zero_eq_spec tz now, ?_, h1, h2, h3, h4⟩
  unfold specLocalMidnightUtcUs
  ring

/-- C9: a duration string not matching the `"N:unit"` grammar and a
timestamp string not matching the calendar-timestamp grammar both fail to
parse (format error), rather than being silently coerced to a value. -/
theorem claim_C9_malformed_strings_fail (s t : String) (tz : Tz)
    (hs : ¬ durGrammar s) (ht : ¬ tsGrammar t) :
    parseDuration s = none ∧ ts_to_utc_us tz t = none := by
  constructor
  · cases hd : parseDuration s with
    | none => rfl
    | some k => exact absurd (parseDuration_sound hd) hs
  · cases hx : ts_to_utc_us tz t with
    | none => rfl
    | some x => exact absurd (ts_sound hx) ht

-- ## Witnesses

theorem claim_C2_witness :
    validDT ⟨2023, 7, 22, 15, 30, 45, 123456⟩ = true ∧
    float_string_to_dt (dt_to_float_string ⟨2023, 7, 22, 15, 30, 45, 123456⟩) =
      some ⟨2023, 7, 22, 15, 30, 45, 123456⟩ :=
  ⟨by decide, claim_C2_float_string_roundtrip ⟨2023, 7, 22, 15, 30, 45, 123456⟩ (by decide)⟩

theorem claim_C4_witness :
    parseDuration "2:hours" = some 7200 ∧
    (get_time_ranges_and_args
        { since := some "2:hours", tz := utcTz, nowUs := 1689954645000000 } =
      some [("since=" ++ "2:hours",
        (utcFloatOfEpochUs (1689954645000000 - (7200 : Int) * 1000000), XFloat.inf))] ∧
    XFloat.lt (XFloat.fin (utcFloatOfEpochUs (1689954645000000 - (7200 : Int) * 1000000)))
      XFloat.inf) :=
  ⟨by decide, claim_C4_since_range "2:hours" 7200 utcTz 1689954645000000 (by decide)⟩

theorem claim_C5_witness : (1 : ℚ) ≤ 2 :=
  claim_C5_ranges_ordered_amended
    { startF := some 1, endF := some 2, tz := utcTz, nowUs := 0 }
    [("start=1.0,end=2.0", ((1 : ℚ), XFloat.fin 2))]
    (fun _ => ⟨by norm_num [utcTz], by norm_num [utcTz]⟩)
    (by decide)
    (fun s e hs he => by
      injection hs with hs2
      injection he with he2
      rw [← hs2, ← he2]
      norm_num)
    (fun e he => by
      injection he with he2
      rw [← he2]
      norm_num)
    (fun u v hu => Option.noConfusion hu)
    rfl
    "start=1.0,end=2.0" 1 2 (by decide)

theorem claim_C6_witness : days_ago (-5) utcTz 0 = days_ago 0 utcTz 0 :=
  claim_C6_negative_days_clamp (-5) utcTz 0 (by decide)

theorem claim_C8_witness :
    get_time_ranges_and_args
        { start_ts := some "2023-07-22,2023-07-23", tz := utcTz, nowUs := 0 } =
      some ((splitOnComma "2023-07-22,2023-07-23").map (fun v =>
        ("start_ts=" ++ v,
         (utcFloatOfEpochUs ((fun u => if u = "2023-07-22" then (1689984000000000 : Int)
            else 1690070400000000) v), XFloat.inf)))) ∧
    ((splitOnComma "2023-07-22,2023-07-23").map (fun v =>
        ("start_ts=" ++ v,
         (utcFloatOfEpochUs ((fun u => if u = "2023-07-22" then (1689984000000000 : Int)
            else 1690070400000000) v), XFloat.inf)))).length =
      (splitOnComma "2023-07-22,2023-07-23").length :=
  claim_C8_fanout_amended "2023-07-22,2023-07-23" utcTz 0
    (fun u => if u = "2023-07-22" then 1689984000000000 else 1690070400000000)
    (by decide) (by decide)

theorem claim_C9_witness :
    parseDuration "2hours" = none ∧ ts_to_utc_us utcTz "x" = none :=
  claim_C9_malformed_strings_fail "2hours" "x" utcTz
    (by
      rintro ⟨ds, u, hne, hdig, hu, heq⟩
      have hc : ':' ∈ ("2hours").data := by
        rw [heq]
        simp
      exact absurd hc (by decide))
    (by
      rintro ⟨dt, hval, hus, hor⟩
      rcases hor with h1 | h1
      · have hlen : (renderDate dt).data.length = 10 := by
          simp [renderDate, pad4, pad2]
        rw [← h1] at hlen
        exact absurd hlen (by decide)
      · have hlen : (renderDateTime dt).data.length = 19 := by
          simp [renderDateTime, pad4, pad2]
        rw [← h1] at hlen
        exact absurd hlen (by decide))

theorem claim_C10_witness :
    dt_to_float_string ⟨2023, 7, 22, 15, 30, 45, 0⟩ = "20230722153045.0" ∧
    (dt_to_float_string ⟨2023, 7, 22, 15, 30, 45, 0⟩ ++ "00000" =
      strftimeFloatString ⟨2023, 7, 22, 15, 30, 45, 0⟩ ∧
    dt_to_float_string ⟨2023, 7, 22, 15, 30, 45, 0⟩ ≠
      strftimeFloatString ⟨2023, 7, 22, 15, 30, 45, 0⟩) :=
  ⟨by decide, claim_C10_zero_fraction_normalized ⟨2023, 7, 22, 15, 30, 45, 0⟩ rfl⟩
